import Mathlib

/-!
Verification of the WiloInvoice field-extraction engine and its encrypted,
deduplicating record store, shallowly embedded from `src/core.py`,
`src/security.py` and `src/storage.py`.

Python strings are modelled as `List Char` (Python 3 strings are sequences of
code points).  The regular expressions of `core.py` are fixed, concrete
patterns; each is hand-compiled below into an executable matcher that follows
Python `re` semantics (leftmost match, alternatives and greedy repetition with
backtracking) for that concrete pattern.  Character classes `\d`, `\s`,
`[A-Z]` are modelled by `Char.isDigit`, `Char.isWhitespace` and an explicit
ASCII range; the invoices this program targets are ASCII in the matched
positions.
-/

namespace WiloInvoice

abbrev Str := List Char

/-- Models Python's `\s` class and the whitespace set of `str.strip`. -/
def isSpace (c : Char) : Bool := c.isWhitespace

/-- `[A-Z]` in the tax-id pattern of `core.py`. -/
def isUpperAZ (c : Char) : Bool := 'A' ≤ c && c ≤ 'Z'

/-- Python `s.lower()`, used by the keyword checks of `extract_amount_smart`. -/
def lowerS (s : Str) : Str := s.map Char.toLower

/-- Python's substring test `pat in s` (`containsSub pat s = true` iff `pat`
occurs contiguously in `s`). -/
def containsSub (pat : Str) : Str → Bool
  | [] => pat.isEmpty
  | c :: r => pat.isPrefixOf (c :: r) || containsSub pat r

/-- Python `matches[-1].replace(",", "")` in `extract_amount_smart`. -/
def stripCommas (s : Str) : Str := s.filter (fun c => c != ',')

/-! ## The amount grammar

`AMOUNT_REGEX = r'(?:INR\s*)?(\d{1,3}(?:,\d{3})*\.\d{2})'` (`core.py` line 12).
-/

/-- `\d{n}` (exactly `n` digits): returns the digits and the rest. -/
def digitsTake : Nat → Str → Option (Str × Str)
  | 0, s => some ([], s)
  | _ + 1, [] => none
  | n + 1, c :: s =>
    if c.isDigit then
      match digitsTake n s with
      | some (d, r) => some (c :: d, r)
      | none => none
    else none

/-- `(?:,\d{3})*`, greedy.  (No backtracking is needed: if the regex engine
gave back a group, the next character would be the `,` that opened it, which
`\.` can never match.) -/
def commaGroups : Str → Str × Str
  | c0 :: a :: b :: c :: s =>
    if c0 == ',' && a.isDigit && b.isDigit && c.isDigit then
      (c0 :: a :: b :: c :: (commaGroups s).1, (commaGroups s).2)
    else ([], c0 :: a :: b :: c :: s)
  | s => ([], s)

/-- `\.\d{2}`. -/
def dotTwo : Str → Option (Str × Str)
  | c0 :: a :: b :: s =>
    if c0 == '.' && a.isDigit && b.isDigit then some ([c0, a, b], s) else none
  | _ => none

/-- The capture group `\d{1,3}(?:,\d{3})*\.\d{2}` starting with exactly `n`
leading digits. -/
def coreWith (n : Nat) (s : Str) : Option (Str × Str) :=
  match digitsTake n s with
  | some (d, r) =>
    match dotTwo (commaGroups r).2 with
    | some (t, r2) => some (d ++ (commaGroups r).1 ++ t, r2)
    | none => none
  | none => none

/-- The capture group of `AMOUNT_REGEX`; `\d{1,3}` is greedy so three leading
digits are tried first, then two, then one. -/
def amountCore (s : Str) : Option (Str × Str) :=
  match coreWith 3 s with
  | some v => some v
  | none =>
    match coreWith 2 s with
    | some v => some v
    | none => coreWith 1 s

/-- Does `s` start with the literal `INR`? -/
def hasINR : Str → Bool
  | c1 :: c2 :: c3 :: _ => c1 == 'I' && c2 == 'N' && c3 == 'R'
  | _ => false

def afterINR (s : Str) : Str := if hasINR s then s.drop 3 else s

/-- One attempt of `AMOUNT_REGEX` at the head of `s`: the optional `INR\s*`
prefix is tried first (as the regex engine does); if the group then fails, the
engine retries without the prefix at the same position.  Returns the captured
group and the rest of the input after the whole match. -/
def matchAmountAt (s : Str) : Option (Str × Str) :=
  if hasINR s then
    match amountCore ((afterINR s).dropWhile isSpace) with
    | some v => some v
    | none => amountCore s
  else amountCore s

/-- `re.findall(AMOUNT_REGEX, s)`: scan left to right, at each position try a
match; on success record the group and resume after the match.  The fuel
argument is the length of the original string: every step consumes at least
one character, so it never runs out. -/
def findAmountsF : Nat → Str → List Str
  | 0, _ => []
  | _ + 1, [] => []
  | fuel + 1, c :: rest =>
    match matchAmountAt (c :: rest) with
    | some (cap, r) => cap :: findAmountsF fuel r
    | none => findAmountsF fuel rest

def findAmounts (s : Str) : List Str := findAmountsF s.length s


/-! ## Label-proximity amount search (`extract_amount_smart`, `core.py` 109-128) -/

/-- `any(k.lower() in line.lower() for k in label_keywords)`. -/
def hasKeyword (kws : List Str) (line : Str) : Bool :=
  kws.any (fun k => containsSub (lowerS k) (lowerS line))

/-- `"%" in line`. -/
def pctB (line : Str) : Bool := line.contains '%'

/-- Does `\.\d{2}` match at the head of `s`? -/
def dotDDHere : Str → Bool
  | c0 :: a :: b :: _ => c0 == '.' && a.isDigit && b.isDigit
  | _ => false

/-- `re.search(r'\.\d{2}', line)` as a Bool: some position starts `.` digit digit. -/
def hasDotDD : Str → Bool
  | [] => false
  | c :: r => dotDDHere (c :: r) || hasDotDD r

/-- `extract_amount_smart(label_keywords)` over the normalized line list.  The
loop index `i` of the source becomes structural recursion: the line at `i+1`
is the head of the remaining list.  A line without any keyword, or with a `%`
but no `.dd` substring, is skipped (`continue`); otherwise the last
`AMOUNT_REGEX` group on the line — or, failing that, on the immediately
following line when that line has no `%` — is returned with commas removed. -/
def extract_amount_smart (kws : List Str) : List Str → Option Str
  | [] => none
  | l :: rest =>
    if !hasKeyword kws l then extract_amount_smart kws rest
    else if pctB l && !hasDotDD l then extract_amount_smart kws rest
    else
      match (findAmounts l).getLast? with
      | some m => some (stripCommas m)
      | none =>
        match rest with
        | [] => none
        | nl :: _ =>
          if pctB nl then extract_amount_smart kws rest
          else
            match (findAmounts nl).getLast? with
            | some m => some (stripCommas m)
            | none => extract_amount_smart kws rest

/-! ## Line splitting (`core.py` line 73) -/

/-- Python `text.split('\n')` (keeps empty pieces). -/
def splitNl : Str → List Str
  | [] => [[]]
  | c :: r =>
    if c == '\n' then [] :: splitNl r
    else
      match splitNl r with
      | l :: ls => (c :: l) :: ls
      | [] => [[c]]

/-- Python `str.strip()`. -/
def stripWS (l : Str) : Str :=
  ((l.dropWhile isSpace).reverse.dropWhile isSpace).reverse

/-- `[l.strip() for l in text.split('\n') if l.strip()]`. -/
def lines_of (text : Str) : List Str :=
  ((splitNl text).map stripWS).filter (fun l => !l.isEmpty)

/-! ## Field heuristics (`_parse_deep_fields`, `core.py` 60-107) -/

/-- `line.upper().replace(" ", "")` in the vendor loop. -/
def cleanLine (l : Str) : Str := (l.map Char.toUpper).filter (fun c => c != ' ')

/-- Vendor pass: the first of the first 10 lines whose cleaned form contains
neither `TAXINVOICE` nor `ORIGINAL`; `none` when every candidate is
boilerplate (the field then keeps its default). -/
def vendorSearch (lines : List Str) : Option Str :=
  (lines.take 10).find? (fun l =>
    !(containsSub "TAXINVOICE".data (cleanLine l) || containsSub "ORIGINAL".data (cleanLine l)))

/-- Does `\d{2}[A-Z]{5}\d{4}[A-Z]{1}[1-9A-Z]{1}Z[0-9A-Z]{1}` (the `gst_pattern`
of `core.py` line 83) match at the head of `s`?  Note the 13th character class
is `[1-9A-Z]`: the zero digit is excluded there. -/
def gstinHere : Str → Bool
  | d1 :: d2 :: l1 :: l2 :: l3 :: l4 :: l5 :: e1 :: e2 :: e3 :: e4 :: f1 :: x1 :: z :: x2 :: _ =>
    d1.isDigit && d2.isDigit &&
    isUpperAZ l1 && isUpperAZ l2 && isUpperAZ l3 && isUpperAZ l4 && isUpperAZ l5 &&
    e1.isDigit && e2.isDigit && e3.isDigit && e4.isDigit &&
    isUpperAZ f1 &&
    (('1' ≤ x1 && x1 ≤ '9') || isUpperAZ x1) &&
    z == 'Z' &&
    (x2.isDigit || isUpperAZ x2)
  | _ => false

/-- `re.findall(gst_pattern, text)[0]`: the pattern has fixed length 15, so
the first match is the leftmost position whose 15-character window satisfies
the character classes. -/
def gstinSearch : Str → Option Str
  | [] => none
  | c :: r =>
    if gstinHere (c :: r) then some ((c :: r).take 15) else gstinSearch r

/-- Case-insensitive literal match (`(?i)`): `pat` is given lowercased;
returns the rest of `s` after the matched literal. -/
def ciRest (pat : Str) (s : Str) : Option Str :=
  if (s.take pat.length).map Char.toLower == pat then some (s.drop pat.length) else none

/-- The invoice-number token class: letters, digits, slash, hyphen. -/
def isInvTokChar (c : Char) : Bool :=
  isUpperAZ c || ('a' ≤ c && c ≤ 'z') || c.isDigit || c == '/' || c == '-'

/-- The label alternation `(?i)(invoice\s*no|inv\s*#)`.  The two alternatives
can never both match at one position (after `inv`, `\s*#` requires `#` where
`invoice` has `o`), so trying them in order needs no backtracking. -/
def invLabelRest (s : Str) : Option Str :=
  match ciRest "invoice".data s with
  | some r => ciRest "no".data (r.dropWhile isSpace)
  | none =>
    match ciRest "inv".data s with
    | some r =>
      match r.dropWhile isSpace with
      | c :: t => if c == '#' then some t else none
      | [] => none
    | none => none

/-- `\s*[:.]?\s*` then a nonempty run of token-class characters, after the label.  The separator and
whitespace classes are disjoint from the token class, so the greedy parse is
the only possible one and no backtracking arises. -/
def invTokenAfter (r : Str) : Option Str :=
  let r1 := r.dropWhile isSpace
  let r2 := match r1 with
            | c :: t => if c == ':' || c == '.' then t else r1
            | [] => r1
  let tok := (r2.dropWhile isSpace).takeWhile isInvTokChar
  if tok.isEmpty then none else some tok

/-- The invoice-number regex search of `core.py` line 97 (label, optional
separator, token), returning capture group 2. -/
def invNoSearch : Str → Option Str
  | [] => none
  | c :: r =>
    match invLabelRest (c :: r) with
    | some rest =>
      match invTokenAfter rest with
      | some tok => some tok
      | none => invNoSearch r
    | none => invNoSearch r

/-- Does the date pattern (2 digits, slash-or-hyphen, 2 digits,
slash-or-hyphen, 4 digits) match at the head of `s`? -/
def dateHere : Str → Option Str
  | a :: b :: s1 :: c :: d :: s2 :: e :: f :: g :: h :: _ =>
    if a.isDigit && b.isDigit && (s1 == '/' || s1 == '-') &&
       c.isDigit && d.isDigit && (s2 == '/' || s2 == '-') &&
       e.isDigit && f.isDigit && g.isDigit && h.isDigit
    then some [a, b, s1, c, d, s2, e, f, g, h] else none
  | _ => none

/-- The date regex search of `core.py` line 104: first match, verbatim. -/
def dateSearch : Str → Option Str
  | [] => none
  | c :: r =>
    match dateHere (c :: r) with
    | some m => some m
    | none => dateSearch r

/-- The label alternation `(?i)(invoice to|bill to|billed to)`.  At any single
position at most one alternative can match (`invoice to` starts with `i`, and
`bill to`/`billed to` disagree at their fifth character), so order-only trying
matches the engine. -/
def buyerLabelRest (s : Str) : Option Str :=
  match ciRest "invoice to".data s with
  | some r => some r
  | none =>
    match ciRest "bill to".data s with
    | some r => some r
    | none => ciRest "billed to".data s

/-- The suffixes of `s` left after a `\s*` that consumed some of the leading
whitespace run, in the engine's greedy preference order (longest consumed
first). -/
def wsRests (s : Str) : List Str :=
  let m := (s.takeWhile isSpace).length
  (List.range (m + 1)).map (fun i => s.drop (m - i))

/-- `[:.-]?`: with the separator consumed first (the engine's preference),
then without. -/
def sepRests (s : Str) : List Str :=
  (match s with
   | c :: t => if c == ':' || c == '.' || c == '-' then [t] else []
   | [] => []) ++ [s]

/-- `\n+([^\n]+)`: at least one newline (greedily all of them), then a
nonempty capture running to the next newline.  (`[^\n]+` cannot start on a
newline, so the greedy `\n+` never needs to give characters back.) -/
def nlCapture (s : Str) : Option Str :=
  match s with
  | c :: _ =>
    if c == '\n' then
      let cap := (s.dropWhile (fun x => x == '\n')).takeWhile (fun x => x != '\n')
      if cap.isEmpty then none else some cap
    else none
  | [] => none

def firstSome {α β : Type} (f : α → Option β) : List α → Option β
  | [] => none
  | a :: r =>
    match f a with
    | some b => some b
    | none => firstSome f r

/-- `\s*[:.-]?\s*\n+([^\n]+)` after the buyer label, with the engine's
backtracking order over the two `\s*` and the optional separator. -/
def buyerTail (r : Str) : Option Str :=
  firstSome (fun r1 =>
    firstSome (fun r2 =>
      firstSome nlCapture (wsRests r2)) (sepRests r1)) (wsRests r)

/-- `re.search(r'(?i)(invoice to|bill to|billed to)\s*[:.-]?\s*\n+([^\n]+)', text)`,
returning capture group 2. -/
def buyerSearch : Str → Option Str
  | [] => none
  | c :: r =>
    match buyerLabelRest (c :: r) with
    | some rest =>
      match buyerTail rest with
      | some cap => some cap
      | none => buyerSearch r
    | none => buyerSearch r

/-! ## Currency-symbol normalization (`process_invoice`, `core.py` 29-32) -/

/-- Python `s.replace(pat, rep)`: replace every occurrence of the nonempty
`pat`, scanning left to right without overlap. -/
def replaceL (pat rep : Str) : Str → Str
  | [] => []
  | c :: r =>
    if pat.isPrefixOf (c :: r) then rep ++ replaceL pat rep (r.drop (pat.length - 1))
    else c :: replaceL pat rep r
termination_by s => s.length
decreasing_by
  · simp [List.length_drop]; omega
  · simp

/-- The rupee glyph U+20B9. -/
def rupee : Str := ['₹']

/-- The common mojibake of the rupee glyph: its UTF-8 bytes decoded as
cp1252, i.e. U+00E2 U+201A U+00B9. -/
def rupeeMoji : Str := ['â', '‚', '¹']

def INRrep : Str := "INR ".data

/-- The four in-order `text.replace` calls of `process_invoice`:
rupee glyph, `Rs.`, `Rs`, then the mojibake sequence, each to `INR `. -/
def normalize_currency (s : Str) : Str :=
  replaceL rupeeMoji INRrep
    (replaceL "Rs".data INRrep
      (replaceL "Rs.".data INRrep
        (replaceL rupee INRrep s)))

/-! ## Exact decimal model of the fallback arithmetic (`core.py` 146-158)

The source computes `float(subtotal) + float(cgst) + float(sgst)` and formats
with `f"{computed:.2f}"`.  Every string reaching those `float` calls is either
the default `"0.00"` or a comma-stripped `AMOUNT_REGEX` match, i.e. a numeral
`digits '.' digit digit`; on such two-decimal quantities (below the 2^53
precision bound of IEEE doubles, which all realistic invoice totals are) the
float arithmetic and formatting are exact, so they are modelled as exact
arithmetic on integer cents. -/

def digitVal (c : Char) : Nat := c.toNat - 48

def digitsVal (s : Str) : Nat := s.foldl (fun acc c => acc * 10 + digitVal c) 0

/-- `float(s)` restricted to the `digits '.' digit digit` numerals that this
code path produces, returning the value in cents; `none` models a raised
`ValueError` (which `_parse_deep_fields` would swallow). -/
def parseCents (s : Str) : Option Nat :=
  match s.takeWhile Char.isDigit, s.dropWhile Char.isDigit with
  | [], _ => none
  | ip, [c0, a, b] =>
    if c0 == '.' && a.isDigit && b.isDigit then
      some (digitsVal ip * 100 + digitVal a * 10 + digitVal b)
    else none
  | _, _ => none

/-- `f"{computed:.2f}"` for an exact value of `n` cents. -/
def formatCents (n : Nat) : Str :=
  (Nat.repr (n / 100)).data ++ ['.', Nat.digitChar (n / 10 % 10), Nat.digitChar (n % 10)]

/-! ## Amount resolution (`core.py` 130-158) -/

def cgstOf (lines : List Str) : Str :=
  (extract_amount_smart ["CGST".data] lines).getD "0.00".data

def sgstOf (lines : List Str) : Str :=
  (extract_amount_smart ["SGST".data] lines).getD "0.00".data

/-- The grand-total priority loop: the first of `"Grand Total"`,
`"TOTAL AMOUNT"`, `"Amount Payable"`, `"Invoice Total"` whose single-keyword
search yields a value. -/
def grandDirect (lines : List Str) : Option Str :=
  match extract_amount_smart ["Grand Total".data] lines with
  | some v => some v
  | none =>
    match extract_amount_smart ["TOTAL AMOUNT".data] lines with
    | some v => some v
    | none =>
      match extract_amount_smart ["Amount Payable".data] lines with
      | some v => some v
      | none => extract_amount_smart ["Invoice Total".data] lines

def subtotalKeys : List Str := ["Subtotal".data, "Sub Total".data, "Total".data]

/-- The `try` block of the fallback: subtotal from the Subtotal/Sub Total/Total
search (`0` when absent), plus the already-extracted CGST and SGST strings,
each through `float`; `none` when a `float` raises (the swallowed exception)
or when the computed sum is not strictly positive (no update either way). -/
def fallbackTotal (lines : List Str) (cg sg : Str) : Option Str :=
  match (match extract_amount_smart subtotalKeys lines with
         | some s => parseCents s
         | none => some 0) with
  | none => none
  | some sub =>
    match parseCents cg with
    | none => none
    | some c =>
      match parseCents sg with
      | none => none
      | some g =>
        if 0 < sub + c + g then some (formatCents (sub + c + g)) else none

/-- `data['grand_total']`: the priority loop's value, then — whenever the
field still reads `"0.00"` — the fallback computation. -/
def grandOf (lines : List Str) : Str :=
  let direct := (grandDirect lines).getD "0.00".data
  if direct = "0.00".data then (fallbackTotal lines (cgstOf lines) (sgstOf lines)).getD direct
  else direct

/-! ## The extracted record (`core.py` 60-163) -/

/-- The `data` dict built by `_parse_deep_fields`; every field is always
present, initialized to its default.  (The redundant `data['vendor']` alias
added for UI compatibility is omitted.) -/
structure ExtractedInvoice where
  invoice_number : Str
  invoice_date : Str
  vendor_name : Str
  vendor_gstin : Str
  buyer_name : Str
  cgst : Str
  sgst : Str
  grand_total : Str
  currency : Str
deriving DecidableEq, Repr

/-- `_parse_deep_fields`: each heuristic overwrites its default only when it
finds a match. -/
def parse_deep_fields (text : Str) : ExtractedInvoice :=
  let lines := lines_of text
  { invoice_number := (invNoSearch text).getD "N/A".data
    invoice_date := (dateSearch text).getD "N/A".data
    vendor_name := (vendorSearch lines).getD "Unknown".data
    vendor_gstin := (gstinSearch text).getD "N/A".data
    buyer_name := (stripWS <$> buyerSearch text).getD "Unknown".data
    cgst := cgstOf lines
    sgst := sgstOf lines
    grand_total := grandOf lines
    currency := "INR".data }

/-- The terminal per-document failure of `process_invoice`
(`{"status": "Error", "error": "Empty File"}`, the spec's
`EmptyDocumentError`). -/
inductive DocError where
  | emptyFile : DocError
deriving DecidableEq, Repr

/-- `process_invoice` given the recovered text: empty text is the terminal
error; otherwise the text is currency-normalized and parsed, always yielding
a record. -/
def process_invoice (text : Str) : Except DocError ExtractedInvoice :=
  if text.isEmpty then .error .emptyFile
  else .ok (parse_deep_fields (normalize_currency text))

/-! ## Security layer (`security.py` 24-33)

The Fernet cipher of the `cryptography` library is an external collaborator;
it is modelled abstractly as any symmetric cipher satisfying its documented
contract: decrypting a token it produced returns the plaintext, it never
produces an empty token, and an invalid token makes decryption fail
(`Fernet.decrypt` raises, modelled as `none`). -/

structure Cipher where
  enc : Str → List Nat
  dec : List Nat → Option Str
  enc_dec : ∀ s, dec (enc s) = some s
  enc_ne : ∀ s, enc s ≠ []

/-- `SecurityManager.encrypt_data`: empty input short-circuits to `b""`
without touching the cipher. -/
def encrypt_data (c : Cipher) (data : Str) : List Nat :=
  if data.isEmpty then [] else c.enc data

/-- Python's `"[DECRYPTION_FAILED]"` sentinel. -/
def decryptFailed : Str := "[DECRYPTION_FAILED]".data

/-- `SecurityManager.decrypt_data`: empty token short-circuits to `""`;
otherwise a raising `Fernet.decrypt` is caught and becomes the sentinel. -/
def decrypt_data (c : Cipher) (token : List Nat) : Str :=
  if token.isEmpty then []
  else
    match c.dec token with
    | some s => s
    | none => decryptFailed

/-- A concrete cipher instance used to witness the security theorems: tags
the code-point list with a marker byte. -/
def idCipher : Cipher where
  enc s := 0 :: s.map Char.toNat
  dec t :=
    match t with
    | 0 :: ns => some (ns.map Char.ofNat)
    | _ => none
  enc_dec s := by
    have h : Char.ofNat ∘ Char.toNat = id := funext fun c => Char.ofNat_toNat c
    simp [h]
  enc_ne s := by simp

/-! ## Record store (`storage.py` 19-84)

The sqlite table is modelled as the list of its rows; the
`file_hash TEXT UNIQUE` constraint means an `INSERT` with an already-present
hash raises `sqlite3.IntegrityError`, which `save_invoice` turns into the
`False` (DuplicateRejected) return without any change to the table. -/

structure StoredRow where
  file_hash : Str
  filename : Str
  upload_date : Str
  invoice_number : Str
  invoice_date : Str
  vendor_name : Str
  vendor_gstin : Str
  buyer_name : Str
  cgst : Str
  sgst : Str
  grand_total : Str
  currency : Str
  json_data_enc : List Nat
  status : Str
deriving DecidableEq, Repr

/-- `json.dumps(data)` modelled as an opaque serialization of the record
(newline-joined fields); only its existence matters to the claims. -/
def encodeRecord (d : ExtractedInvoice) : Str :=
  d.invoice_number ++ '\n' :: d.invoice_date ++ '\n' :: d.vendor_name ++
  '\n' :: d.vendor_gstin ++ '\n' :: d.buyer_name ++ '\n' :: d.cgst ++
  '\n' :: d.sgst ++ '\n' :: d.grand_total ++ '\n' :: d.currency

/-- `StorageEngine.save_invoice`: encrypt the full record, then attempt the
unique-constrained insert; `(true, _)` is `Inserted`, `(false, _)` is
`DuplicateRejected` (the caught `IntegrityError`), leaving the store
unchanged. -/
def save_invoice (sec : Cipher) (store : List StoredRow)
    (filename file_hash upload_date : Str) (data : ExtractedInvoice) :
    Bool × List StoredRow :=
  let json_enc := encrypt_data sec (encodeRecord data)
  if store.any (fun r => r.file_hash == file_hash) then (false, store)
  else
    (true, store ++ [{ file_hash := file_hash
                       filename := filename
                       upload_date := upload_date
                       invoice_number := data.invoice_number
                       invoice_date := data.invoice_date
                       vendor_name := data.vendor_name
                       vendor_gstin := data.vendor_gstin
                       buyer_name := data.buyer_name
                       cgst := data.cgst
                       sgst := data.sgst
                       grand_total := data.grand_total
                       currency := data.currency
                       json_data_enc := json_enc
                       status := "PROCESSED".data }])

/-! ## Spec-worded variant of the tax-id pattern (for claim C7)

The claim describes the 13th character of the tax-id pattern as
"1 alphanumeric character"; the source's class there is `[1-9A-Z]`, which
excludes the zero digit.  `gstinSpecHere` follows the claim's words
(alphanumeric = digit or uppercase letter, as the rest of the claim's
pattern is uppercase-only) so the two readings can be compared. -/

def isAlnumUZ (c : Char) : Bool := c.isDigit || isUpperAZ c

/-- The claim's wording of the tax-id pattern: 2 digits, 5 letters, 4 digits,
1 letter, 1 alphanumeric, literal `Z`, 1 alphanumeric. -/
def gstinSpecHere : Str → Bool
  | d1 :: d2 :: l1 :: l2 :: l3 :: l4 :: l5 :: e1 :: e2 :: e3 :: e4 :: f1 :: x1 :: z :: x2 :: _ =>
    d1.isDigit && d2.isDigit &&
    isUpperAZ l1 && isUpperAZ l2 && isUpperAZ l3 && isUpperAZ l4 && isUpperAZ l5 &&
    e1.isDigit && e2.isDigit && e3.isDigit && e4.isDigit &&
    isUpperAZ f1 &&
    isAlnumUZ x1 &&
    z == 'Z' &&
    isAlnumUZ x2
  | _ => false

/-- First match of the claim's wording of the pattern. -/
def gstinSpecSearch : Str → Option Str
  | [] => none
  | c :: r =>
    if gstinSpecHere (c :: r) then some ((c :: r).take 15) else gstinSpecSearch r

/-- A concrete record (all defaults) for the storage witness. -/
def demoRecord : ExtractedInvoice :=
  { invoice_number := "N/A".data, invoice_date := "N/A".data,
    vendor_name := "Unknown".data, vendor_gstin := "N/A".data,
    buyer_name := "Unknown".data, cgst := "0.00".data, sgst := "0.00".data,
    grand_total := "0.00".data, currency := "INR".data }

/-- The shape of an `AMOUNT_REGEX` capture group: leading digits, comma
groups, then `.` and two digits. -/
def amountShape (cap : Str) : Prop :=
  ∃ d g a b, cap = d ++ g ++ ['.', a, b] ∧ d ≠ [] ∧
    (∀ c ∈ d, c.isDigit = true) ∧
    (∀ c ∈ g, c = ',' ∨ c.isDigit = true) ∧
    a.isDigit = true ∧ b.isDigit = true

/-! # Claims -/

/-- C8: a document whose recovered text is empty is reported as the terminal
`EmptyDocumentError` outcome (the `{"status": "Error", "error": "Empty File"}`
return of `process_invoice`) instead of a record, and a document with
non-empty text never produces that error. -/
theorem c8_empty_text_is_terminal_error :
    ∀ text : Str, process_invoice text = .error .emptyFile ↔ text = [] := by
  intro text
  cases text <;> simp [process_invoice]

/-- C10: encrypting the empty string returns empty bytes independently of the
cipher (the cipher is never consulted), and decrypting empty bytes returns
the empty string, never the decryption-failure sentinel; the round-trip holds
for the empty record but its "ciphertext" is the untransformed empty byte
string. -/
theorem c10_empty_string_not_encrypted :
    ∀ c : Cipher,
      encrypt_data c [] = [] ∧
      decrypt_data c [] = [] ∧
      decrypt_data c (encrypt_data c []) = [] ∧
      (∀ c' : Cipher, encrypt_data c [] = encrypt_data c' []) ∧
      decrypt_data c [] ≠ decryptFailed := by
  intro c
  refine ⟨rfl, rfl, rfl, fun c' => rfl, ?_⟩
  intro h
  have h' : ([] : Str) = decryptFailed := h
  exact absurd h' (by decide)

/-- C6: for every record string, decrypting its encryption returns the
record; and for every corrupted or wrongly-keyed ciphertext (a nonempty byte
string the cipher rejects — Fernet tokens are never empty, and the empty byte
string takes the `C10` shortcut instead), `decrypt_data` returns the
`"[DECRYPTION_FAILED]"` sentinel rather than letting the exception escape. -/
theorem c6_encrypt_decrypt_roundtrip :
    ∀ c : Cipher,
      (∀ s : Str, decrypt_data c (encrypt_data c s) = s) ∧
      (∀ tok : List Nat, tok ≠ [] → c.dec tok = none →
        decrypt_data c tok = decryptFailed) := by
  intro c
  constructor
  · intro s
    by_cases hs : s.isEmpty
    · have hnil : s = [] := by cases s <;> simp_all
      subst hnil
      rfl
    · have hne : (c.enc s).isEmpty = false := by
        have := c.enc_ne s
        cases henc : c.enc s <;> simp_all
      simp [encrypt_data, hs, decrypt_data, hne, c.enc_dec]
  · intro tok hne hdec
    have hne' : tok.isEmpty = false := by cases tok <;> simp_all
    simp [decrypt_data, hne', hdec]

/-- Witness for C6 at a concrete cipher: the round-trip on `"hi"`, and the
sentinel on the rejected token `[99]`. -/
theorem c6_encrypt_decrypt_roundtrip_witness :
    decrypt_data idCipher (encrypt_data idCipher "hi".data) = "hi".data ∧
    decrypt_data idCipher [99] = decryptFailed :=
  ⟨(c6_encrypt_decrypt_roundtrip idCipher).1 "hi".data,
   (c6_encrypt_decrypt_roundtrip idCipher).2 [99] (by decide) (by decide)⟩

/-- C3: `save_invoice` keyed by the file content hash returns `Inserted`
(`true`) exactly when the hash is absent and `DuplicateRejected` (`false`)
when it is present, leaving the whole store — existing row included —
unchanged in the rejected case; the same hash twice gives `Inserted` then
`DuplicateRejected`, while two different hashes with identical extracted
field values both give `Inserted`. -/
theorem c3_hash_keyed_dedup_insert :
    (∀ (sec : Cipher) (store : List StoredRow) (fn h up : Str) (d : ExtractedInvoice),
      store.any (fun r => r.file_hash == h) = true →
      save_invoice sec store fn h up d = (false, store)) ∧
    (∀ (sec : Cipher) (store : List StoredRow) (fn h up : Str) (d : ExtractedInvoice),
      store.any (fun r => r.file_hash == h) = false →
      (save_invoice sec store fn h up d).1 = true) ∧
    (∀ (sec : Cipher) (store : List StoredRow) (fn h up fn' up' : Str)
        (d d' : ExtractedInvoice),
      store.any (fun r => r.file_hash == h) = false →
      (save_invoice sec store fn h up d).1 = true ∧
      save_invoice sec (save_invoice sec store fn h up d).2 fn' h up' d'
        = (false, (save_invoice sec store fn h up d).2)) ∧
    (∀ (sec : Cipher) (store : List StoredRow) (fn1 fn2 h1 h2 up : Str)
        (d : ExtractedInvoice),
      store.any (fun r => r.file_hash == h1) = false →
      store.any (fun r => r.file_hash == h2) = false →
      (h1 == h2) = false →
      (save_invoice sec store fn1 h1 up d).1 = true ∧
      (save_invoice sec (save_invoice sec store fn1 h1 up d).2 fn2 h2 up d).1 = true) := by
  refine ⟨?_, ?_, ?_, ?_⟩
  · intro sec store fn h up d hin
    simp [save_invoice, hin]
  · intro sec store fn h up d hout
    simp [save_invoice, hout]
  · intro sec store fn h up fn' up' d d' hout
    constructor
    · simp [save_invoice, hout]
    · simp [save_invoice, hout, List.any_append]
  · intro sec store fn1 fn2 h1 h2 up d h1out h2out hne
    constructor
    · simp [save_invoice, h1out]
    · simp [save_invoice, h1out, h2out, List.any_append, hne]

/-- Witness for C3 on a concrete store: inserting hash `h1` into the empty
store succeeds, re-inserting `h1` is rejected without change, and a second
record with hash `h2` but identical field values succeeds. -/
theorem c3_hash_keyed_dedup_insert_witness :
    (save_invoice idCipher [] "a.pdf".data "h1".data "t".data demoRecord).1 = true ∧
    save_invoice idCipher (save_invoice idCipher [] "a.pdf".data "h1".data "t".data demoRecord).2
        "b.pdf".data "h1".data "t".data demoRecord
      = (false, (save_invoice idCipher [] "a.pdf".data "h1".data "t".data demoRecord).2) ∧
    (save_invoice idCipher (save_invoice idCipher [] "a.pdf".data "h1".data "t".data demoRecord).2
        "b.pdf".data "h2".data "t".data demoRecord).1 = true :=
  ⟨(c3_hash_keyed_dedup_insert.2.2.1 idCipher [] "a.pdf".data "h1".data "t".data
      "b.pdf".data "t".data demoRecord demoRecord (by decide)).1,
   ((c3_hash_keyed_dedup_insert.2.2.1 idCipher [] "a.pdf".data "h1".data "t".data
      "b.pdf".data "t".data demoRecord demoRecord (by decide)).2),
   (c3_hash_keyed_dedup_insert.2.2.2 idCipher [] "a.pdf".data "b.pdf".data
      "h1".data "h2".data "t".data demoRecord (by decide) (by decide) (by decide)).2⟩

/-- C7 counterexample: on the 15-character text `12ABCDE1234F0Z5` — whose
13th character is the zero digit — the claim's pattern (2 digits, 5 letters,
4 digits, 1 letter, 1 alphanumeric, `Z`, 1 alphanumeric) matches the whole
text, so the claim says `vendor_gstin` becomes `12ABCDE1234F0Z5`; but the
source's class for that position is `[1-9A-Z]`, which rejects `0`, so the
code finds no match and the field stays `N/A`. -/
theorem c7_counterexample_zero_entity_digit :
    gstinSpecSearch "12ABCDE1234F0Z5".data = some "12ABCDE1234F0Z5".data ∧
    gstinSearch "12ABCDE1234F0Z5".data = none ∧
    (parse_deep_fields "12ABCDE1234F0Z5".data).vendor_gstin = "N/A".data := by
  refine ⟨by decide, by decide, by decide⟩

/-- C7 (amended): the vendor tax ID is the first match, anywhere in the text,
of the fixed pattern 2 digits, 5 uppercase letters, 4 digits, 1 uppercase
letter, 1 character that is a nonzero digit or uppercase letter, the literal
`Z`, and 1 character that is a digit or uppercase letter; if no substring
matches it stays `N/A`.  The second conjunct shows the leftmost of two
matches being picked. -/
theorem c7_first_tax_id_match :
    (∀ text : Str,
      (parse_deep_fields text).vendor_gstin = (gstinSearch text).getD "N/A".data) ∧
    gstinSearch "x 22AAAAA0000A1Z5 then 33BBBBB1111B2Z6".data
      = some "22AAAAA0000A1Z5".data := by
  refine ⟨fun text => rfl, by decide⟩

/-! Helper equations characterizing one step of the `extract_amount_smart`
scan; used both for claim C1 and for the fallback-arithmetic analysis. -/

theorem extract_step_nokw (kws : List Str) (l : Str) (rest : List Str)
    (h : hasKeyword kws l = false) :
    extract_amount_smart kws (l :: rest) = extract_amount_smart kws rest := by
  cases rest <;> simp [extract_amount_smart, h]

theorem extract_step_pctskip (kws : List Str) (l : Str) (rest : List Str)
    (hk : hasKeyword kws l = true) (hp : pctB l = true) (hd : hasDotDD l = false) :
    extract_amount_smart kws (l :: rest) = extract_amount_smart kws rest := by
  cases rest <;> simp [extract_amount_smart, hk, hp, hd]

theorem extract_step_found (kws : List Str) (l : Str) (rest : List Str) (m : Str)
    (hk : hasKeyword kws l = true) (hc : (pctB l && !hasDotDD l) = false)
    (hm : (findAmounts l).getLast? = some m) :
    extract_amount_smart kws (l :: rest) = some (stripCommas m) := by
  cases rest <;> simp [extract_amount_smart, hk, hc, hm]

theorem extract_step_single_none (kws : List Str) (l : Str)
    (hk : hasKeyword kws l = true) (hc : (pctB l && !hasDotDD l) = false)
    (hm : (findAmounts l).getLast? = none) :
    extract_amount_smart kws [l] = none := by
  simp [extract_amount_smart, hk, hc, hm]

theorem extract_step_next_pct (kws : List Str) (l nl : Str) (rest : List Str)
    (hk : hasKeyword kws l = true) (hc : (pctB l && !hasDotDD l) = false)
    (hm : (findAmounts l).getLast? = none) (hp : pctB nl = true) :
    extract_amount_smart kws (l :: nl :: rest) = extract_amount_smart kws (nl :: rest) := by
  simp [extract_amount_smart, hk, hc, hm, hp]

theorem extract_step_next_found (kws : List Str) (l nl : Str) (rest : List Str) (m : Str)
    (hk : hasKeyword kws l = true) (hc : (pctB l && !hasDotDD l) = false)
    (hm : (findAmounts l).getLast? = none) (hp : pctB nl = false)
    (hm' : (findAmounts nl).getLast? = some m) :
    extract_amount_smart kws (l :: nl :: rest) = some (stripCommas m) := by
  simp [extract_amount_smart, hk, hc, hm, hp, hm']

theorem extract_step_next_none (kws : List Str) (l nl : Str) (rest : List Str)
    (hk : hasKeyword kws l = true) (hc : (pctB l && !hasDotDD l) = false)
    (hm : (findAmounts l).getLast? = none) (hp : pctB nl = false)
    (hm' : (findAmounts nl).getLast? = none) :
    extract_amount_smart kws (l :: nl :: rest) = extract_amount_smart kws (nl :: rest) := by
  simp [extract_amount_smart, hk, hc, hm, hp, hm']

/-- C1: the label-proximity amount search scans lines in order: a line
without any keyword is passed over; a keyword line with a percent sign but no
two-decimal `.dd` substring is skipped; otherwise the last (rightmost)
`AMOUNT_REGEX` match on the line is returned (commas stripped); if the
matched line has no amount, the same extraction applies to the immediately
following line unless that line contains a percent sign, after which the scan
continues.  In particular `"CGST 18% 123.45"` yields `"123.45"` and
`"CGST 18%"` alone yields nothing. -/
theorem c1_label_proximity_scan :
    (∀ (kws : List Str) (l : Str) (rest : List Str),
      hasKeyword kws l = false →
      extract_amount_smart kws (l :: rest) = extract_amount_smart kws rest) ∧
    (∀ (kws : List Str) (l : Str) (rest : List Str),
      hasKeyword kws l = true → pctB l = true → hasDotDD l = false →
      extract_amount_smart kws (l :: rest) = extract_amount_smart kws rest) ∧
    (∀ (kws : List Str) (l : Str) (rest : List Str) (m : Str),
      hasKeyword kws l = true → (pctB l && !hasDotDD l) = false →
      (findAmounts l).getLast? = some m →
      extract_amount_smart kws (l :: rest) = some (stripCommas m)) ∧
    (∀ (kws : List Str) (l nl : Str) (rest : List Str),
      hasKeyword kws l = true → (pctB l && !hasDotDD l) = false →
      (findAmounts l).getLast? = none → pctB nl = true →
      extract_amount_smart kws (l :: nl :: rest) = extract_amount_smart kws (nl :: rest)) ∧
    (∀ (kws : List Str) (l nl : Str) (rest : List Str) (m : Str),
      hasKeyword kws l = true → (pctB l && !hasDotDD l) = false →
      (findAmounts l).getLast? = none → pctB nl = false →
      (findAmounts nl).getLast? = some m →
      extract_amount_smart kws (l :: nl :: rest) = some (stripCommas m)) ∧
    (∀ (kws : List Str) (l nl : Str) (rest : List Str),
      hasKeyword kws l = true → (pctB l && !hasDotDD l) = false →
      (findAmounts l).getLast? = none → pctB nl = false →
      (findAmounts nl).getLast? = none →
      extract_amount_smart kws (l :: nl :: rest) = extract_amount_smart kws (nl :: rest)) ∧
    (∀ (kws : List Str) (l : Str),
      hasKeyword kws l = true → (pctB l && !hasDotDD l) = false →
      (findAmounts l).getLast? = none →
      extract_amount_smart kws [l] = none) ∧
    extract_amount_smart ["CGST".data] ["CGST 18% 123.45".data] = some "123.45".data ∧
    extract_amount_smart ["CGST".data] ["CGST 18%".data] = none := by
  exact ⟨extract_step_nokw, extract_step_pctskip, extract_step_found,
    extract_step_next_pct, extract_step_next_found, extract_step_next_none,
    extract_step_single_none, by decide, by decide⟩

/-- Witness for C1 at concrete inputs: the percent-without-decimal skip rule
on a two-line document. -/
theorem c1_label_proximity_scan_witness :
    hasKeyword ["CGST".data] "CGST 18%".data = true ∧
    pctB "CGST 18%".data = true ∧
    hasDotDD "CGST 18%".data = false ∧
    extract_amount_smart ["CGST".data] ["CGST 18%".data, "x 1.00".data]
      = extract_amount_smart ["CGST".data] ["x 1.00".data] :=
  ⟨by decide, by decide, by decide,
   c1_label_proximity_scan.2.1 ["CGST".data] "CGST 18%".data ["x 1.00".data]
     (by decide) (by decide) (by decide)⟩

/-- C4: extraction always yields a full record: the record type makes every
field (invoice_number, invoice_date, vendor_name, vendor_gstin/tax id,
buyer_name, cgst, sgst, grand_total, currency) present, each heuristic that
finds nothing leaves its documented default (`N/A`, `Unknown`, `0.00`, `INR`),
and no heuristic failure aborts the record (`parse_deep_fields` is total). -/
theorem c4_every_field_defaults :
    ∀ text : Str,
      (invNoSearch text = none → (parse_deep_fields text).invoice_number = "N/A".data) ∧
      (dateSearch text = none → (parse_deep_fields text).invoice_date = "N/A".data) ∧
      (vendorSearch (lines_of text) = none →
        (parse_deep_fields text).vendor_name = "Unknown".data) ∧
      (gstinSearch text = none → (parse_deep_fields text).vendor_gstin = "N/A".data) ∧
      (buyerSearch text = none → (parse_deep_fields text).buyer_name = "Unknown".data) ∧
      (extract_amount_smart ["CGST".data] (lines_of text) = none →
        (parse_deep_fields text).cgst = "0.00".data) ∧
      (extract_amount_smart ["SGST".data] (lines_of text) = none →
        (parse_deep_fields text).sgst = "0.00".data) ∧
      (grandDirect (lines_of text) = none →
        fallbackTotal (lines_of text) (cgstOf (lines_of text)) (sgstOf (lines_of text)) = none →
        (parse_deep_fields text).grand_total = "0.00".data) ∧
      (parse_deep_fields text).currency = "INR".data := by
  intro text
  refine ⟨?_, ?_, ?_, ?_, ?_, ?_, ?_, ?_, rfl⟩
  · intro h; simp [parse_deep_fields, h]
  · intro h; simp [parse_deep_fields, h]
  · intro h; simp [parse_deep_fields, h]
  · intro h; simp [parse_deep_fields, h]
  · intro h; simp [parse_deep_fields, h]
  · intro h; simp [parse_deep_fields, cgstOf, h]
  · intro h; simp [parse_deep_fields, sgstOf, h]
  · intro h1 h2; simp [parse_deep_fields, grandOf, h1, h2]

/-- Witness for C4 on `"TAX INVOICE"`, where every heuristic fails: all nine
fields hold their defaults. -/
theorem c4_every_field_defaults_witness :
    (parse_deep_fields "TAX INVOICE".data).invoice_number = "N/A".data ∧
    (parse_deep_fields "TAX INVOICE".data).invoice_date = "N/A".data ∧
    (parse_deep_fields "TAX INVOICE".data).vendor_name = "Unknown".data ∧
    (parse_deep_fields "TAX INVOICE".data).vendor_gstin = "N/A".data ∧
    (parse_deep_fields "TAX INVOICE".data).buyer_name = "Unknown".data ∧
    (parse_deep_fields "TAX INVOICE".data).cgst = "0.00".data ∧
    (parse_deep_fields "TAX INVOICE".data).sgst = "0.00".data ∧
    (parse_deep_fields "TAX INVOICE".data).grand_total = "0.00".data ∧
    (parse_deep_fields "TAX INVOICE".data).currency = "INR".data :=
  ⟨(c4_every_field_defaults "TAX INVOICE".data).1 (by decide),
   (c4_every_field_defaults "TAX INVOICE".data).2.1 (by decide),
   (c4_every_field_defaults "TAX INVOICE".data).2.2.1 (by decide),
   (c4_every_field_defaults "TAX INVOICE".data).2.2.2.1 (by decide),
   (c4_every_field_defaults "TAX INVOICE".data).2.2.2.2.1 (by decide),
   (c4_every_field_defaults "TAX INVOICE".data).2.2.2.2.2.1 (by decide),
   (c4_every_field_defaults "TAX INVOICE".data).2.2.2.2.2.2.1 (by decide),
   (c4_every_field_defaults "TAX INVOICE".data).2.2.2.2.2.2.2.1 (by decide) (by decide),
   (c4_every_field_defaults "TAX INVOICE".data).2.2.2.2.2.2.2.2⟩

/-! ## Every extracted amount parses back (support for C2)

`extract_amount_smart` only ever returns a comma-stripped `AMOUNT_REGEX`
group, which is a numeral `digits '.' digit digit`; hence the `float` calls
of the fallback can never raise on it. -/

theorem digitsTake_shape :
    ∀ (n : Nat) (s d r : Str), digitsTake n s = some (d, r) →
      d.length = n ∧ ∀ c ∈ d, c.isDigit = true := by
  intro n
  induction n with
  | zero =>
    intro s d r h
    simp only [digitsTake, Option.some.injEq, Prod.mk.injEq] at h
    obtain ⟨h1, -⟩ := h
    subst h1
    simp
  | succ n ih =>
    intro s d r h
    cases s with
    | nil => simp [digitsTake] at h
    | cons c t =>
      simp only [digitsTake] at h
      by_cases hc : c.isDigit = true
      · rw [if_pos hc] at h
        cases hdt : digitsTake n t with
        | none => rw [hdt] at h; simp at h
        | some p =>
          obtain ⟨d', r'⟩ := p
          rw [hdt] at h
          simp only [Option.some.injEq, Prod.mk.injEq] at h
          obtain ⟨hd, -⟩ := h
          subst hd
          obtain ⟨hl, hdig⟩ := ih t d' r' hdt
          refine ⟨by simp [hl], ?_⟩
          intro x hx
          rcases List.mem_cons.mp hx with rfl | hx
          · exact hc
          · exact hdig x hx
      · rw [if_neg hc] at h
        simp at h

theorem commaGroups_shape :
    ∀ (n : Nat) (s : Str), s.length ≤ n →
      ∀ c ∈ (commaGroups s).1, c = ',' ∨ c.isDigit = true := by
  intro n
  induction n with
  | zero =>
    intro s hs x hx
    have hs0 : s = [] := by cases s with
      | nil => rfl
      | cons c t => simp at hs
    subst hs0
    simp [commaGroups] at hx
  | succ n ih =>
    intro s hs x hx
    rcases s with _ | ⟨c0, _ | ⟨a, _ | ⟨b, _ | ⟨c, t⟩⟩⟩⟩
    · simp [commaGroups] at hx
    · simp [commaGroups] at hx
    · simp [commaGroups] at hx
    · simp [commaGroups] at hx
    · simp only [commaGroups] at hx
      by_cases hcond : (c0 == ',' && a.isDigit && b.isDigit && c.isDigit) = true
      · rw [if_pos hcond] at hx
        simp only [Bool.and_eq_true, beq_iff_eq] at hcond
        obtain ⟨⟨⟨h0, ha⟩, hb⟩, hcd⟩ := hcond
        have hlen : t.length ≤ n := by simp at hs; omega
        rcases List.mem_cons.mp hx with rfl | hx
        · exact Or.inl h0
        rcases List.mem_cons.mp hx with rfl | hx
        · exact Or.inr ha
        rcases List.mem_cons.mp hx with rfl | hx
        · exact Or.inr hb
        rcases List.mem_cons.mp hx with rfl | hx
        · exact Or.inr hcd
        · exact ih t hlen x hx
      · rw [if_neg hcond] at hx
        simp at hx

theorem dotTwo_shape (s : Str) :
    ∀ t r, dotTwo s = some (t, r) →
      ∃ a b, t = ['.', a, b] ∧ a.isDigit = true ∧ b.isDigit = true := by
  intro t r h
  rcases s with _ | ⟨c0, _ | ⟨a, _ | ⟨b, u⟩⟩⟩ <;> simp only [dotTwo] at h
  · exact absurd h (by simp)
  · exact absurd h (by simp)
  · exact absurd h (by simp)
  · by_cases hc : (c0 == '.' && a.isDigit && b.isDigit) = true
    · rw [if_pos hc] at h
      simp only [Option.some.injEq, Prod.mk.injEq] at h
      simp only [Bool.and_eq_true, beq_iff_eq] at hc
      exact ⟨a, b, by simp [← h.1, hc.1.1], hc.1.2, hc.2⟩
    · rw [if_neg hc] at h
      exact absurd h (by simp)

theorem coreWith_shape (n : Nat) (s : Str) (hn : 1 ≤ n) :
    ∀ cap r, coreWith n s = some (cap, r) → amountShape cap := by
  intro cap r h
  unfold coreWith at h
  split at h
  · next d r0 hdt =>
      split at h
      · next t r2 hd2 =>
          simp only [Option.some.injEq, Prod.mk.injEq] at h
          obtain ⟨hl, hdig⟩ := digitsTake_shape n s d r0 hdt
          have hgr := commaGroups_shape r0.length r0 (Nat.le_refl _)
          obtain ⟨a, b, ht, ha, hb⟩ := dotTwo_shape (commaGroups r0).2 t r2 hd2
          refine ⟨d, (commaGroups r0).1, a, b, by rw [← h.1, ht], ?_, hdig, hgr, ha, hb⟩
          intro hdnil
          rw [hdnil] at hl
          simp at hl
          omega
      · exact absurd h (by simp)
  · exact absurd h (by simp)

theorem amountCore_shape (s : Str) :
    ∀ cap r, amountCore s = some (cap, r) → amountShape cap := by
  intro cap r h
  unfold amountCore at h
  split at h
  · next v h3 =>
      rw [Option.some.injEq] at h
      exact coreWith_shape 3 s (by omega) cap r (h ▸ h3)
  · next h3 =>
      split at h
      · next v h2 =>
          rw [Option.some.injEq] at h
          exact coreWith_shape 2 s (by omega) cap r (h ▸ h2)
      · exact coreWith_shape 1 s (by omega) cap r h

theorem matchAmountAt_shape (s : Str) :
    ∀ cap r, matchAmountAt s = some (cap, r) → amountShape cap := by
  intro cap r h
  unfold matchAmountAt at h
  by_cases hi : hasINR s = true
  · rw [if_pos hi] at h
    split at h
    · next v hc =>
        rw [Option.some.injEq] at h
        exact amountCore_shape _ cap r (h ▸ hc)
    · exact amountCore_shape s cap r h
  · rw [if_neg hi] at h
    exact amountCore_shape s cap r h

theorem findAmountsF_shape (fuel : Nat) :
    ∀ s cap, cap ∈ findAmountsF fuel s → amountShape cap := by
  induction fuel with
  | zero => intro s cap h; simp [findAmountsF] at h
  | succ fuel ih =>
    intro s cap h
    cases s with
    | nil => simp [findAmountsF] at h
    | cons c rest =>
      simp only [findAmountsF] at h
      cases hm : matchAmountAt (c :: rest) with
      | some p =>
        obtain ⟨cp, r⟩ := p
        rw [hm] at h
        rcases List.mem_cons.mp h with rfl | h
        · exact matchAmountAt_shape _ cap r hm
        · exact ih r cap h
      | none =>
        rw [hm] at h
        exact ih rest cap h

theorem findAmounts_shape (s : Str) : ∀ cap ∈ findAmounts s, amountShape cap :=
  fun cap h => findAmountsF_shape s.length s cap h

theorem takeWhile_digits_append (D t : Str) (hD : ∀ c ∈ D, Char.isDigit c = true) :
    (D ++ t).takeWhile Char.isDigit = D ++ t.takeWhile Char.isDigit ∧
    (D ++ t).dropWhile Char.isDigit = t.dropWhile Char.isDigit := by
  induction D with
  | nil => simp
  | cons c D ih =>
    have hc : c.isDigit = true := hD c (by simp)
    have hih := ih (fun x hx => hD x (by simp [hx]))
    simp [List.takeWhile_cons, List.dropWhile_cons, hc, hih.1, hih.2]

theorem amountShape_parses (cap : Str) (h : amountShape cap) :
    ∃ k, parseCents (stripCommas cap) = some k := by
  obtain ⟨d, g, a, b, hcap, hdne, hdig, hg, ha, hb⟩ := h
  have hda : a.isDigit = true := ha
  have hcomma : ∀ c : Char, c.isDigit = true → (c != ',') = true := by
    intro c hc
    simp only [bne_iff_ne, ne_eq]
    rintro rfl
    exact absurd hc (by decide)
  have hfd : d.filter (fun c => c != ',') = d :=
    List.filter_eq_self.mpr (fun c hc => hcomma c (hdig c hc))
  have hft : List.filter (fun c => c != ',') ['.', a, b] = ['.', a, b] := by
    simp [List.filter, hcomma a ha, hcomma b hb]
  have hfg : ∀ c ∈ g.filter (fun c => c != ','), c.isDigit = true := by
    intro c hc
    obtain ⟨hcg, hcne⟩ := List.mem_filter.mp hc
    rcases hg c hcg with rfl | hcd
    · simp at hcne
    · exact hcd
  have hstrip : stripCommas cap = (d ++ g.filter (fun c => c != ',')) ++ ['.', a, b] := by
    simp only [stripCommas, hcap, List.filter_append, hfd, hft, List.append_assoc]
  set D := d ++ g.filter (fun c => c != ',') with hDdef
  have hDd : ∀ c ∈ D, Char.isDigit c = true := by
    intro c hc
    rcases List.mem_append.mp hc with hc | hc
    · exact hdig c hc
    · exact hfg c hc
  obtain ⟨htw, hdw⟩ := takeWhile_digits_append D ['.', a, b] hDd
  have hdot : List.takeWhile Char.isDigit ['.', a, b] = ([] : Str) := by
    simp [List.takeWhile_cons]
  have hdot2 : List.dropWhile Char.isDigit ['.', a, b] = (['.', a, b] : Str) := by
    simp [List.dropWhile_cons]
  have htwv : (D ++ ['.', a, b]).takeWhile Char.isDigit = D := by
    rw [htw, hdot, List.append_nil]
  have hdwv : (D ++ ['.', a, b]).dropWhile Char.isDigit = ['.', a, b] := by
    rw [hdw, hdot2]
  refine ⟨digitsVal D * 100 + digitVal a * 10 + digitVal b, ?_⟩
  rw [hstrip]
  unfold parseCents
  rw [htwv, hdwv]
  rcases hD0 : D with _ | ⟨c0, D'⟩
  · rw [hD0] at hDdef
    exact absurd hDdef.symm (by simp [hdne])
  · simp [hda, hb]

theorem extract_parses (kws : List Str) :
    ∀ lines v, extract_amount_smart kws lines = some v → ∃ k, parseCents v = some k := by
  intro lines
  induction lines with
  | nil => intro v h; simp [extract_amount_smart] at h
  | cons l rest ih =>
    intro v h
    by_cases hk : hasKeyword kws l = true
    · by_cases hskip : (pctB l && !hasDotDD l) = true
      · obtain ⟨hp, hd⟩ := Bool.and_eq_true_iff.mp hskip
        rw [extract_step_pctskip kws l rest hk hp (by simpa using hd)] at h
        exact ih v h
      · have hc : (pctB l && !hasDotDD l) = false := by simpa using hskip
        cases hm : (findAmounts l).getLast? with
        | some m =>
          rw [extract_step_found kws l rest m hk hc hm, Option.some.injEq] at h
          subst h
          exact amountShape_parses m
            (findAmounts_shape l m (List.mem_of_getLast?_eq_some hm))
        | none =>
          rcases rest with _ | ⟨nl, rest'⟩
          · rw [extract_step_single_none kws l hk hc hm] at h
            simp at h
          · by_cases hp : pctB nl = true
            · rw [extract_step_next_pct kws l nl rest' hk hc hm hp] at h
              exact ih v h
            · have hp' : pctB nl = false := by simpa using hp
              cases hm' : (findAmounts nl).getLast? with
              | some m =>
                rw [extract_step_next_found kws l nl rest' m hk hc hm hp' hm',
                  Option.some.injEq] at h
                subst h
                exact amountShape_parses m
                  (findAmounts_shape nl m (List.mem_of_getLast?_eq_some hm'))
              | none =>
                rw [extract_step_next_none kws l nl rest' hk hc hm hp' hm'] at h
                exact ih v h
    · have hk' : hasKeyword kws l = false := by simpa using hk
      rw [extract_step_nokw kws l rest hk'] at h
      exact ih v h

/-- C2: whenever no grand-total priority label yields a value directly, the
grand total is the subtotal (label-proximity search for Subtotal/Sub Total/
Total, zero when absent or unparsable) plus the parsed CGST and SGST values
(zero on parse failure), formatted to exactly two fraction digits, if and
only if that sum is strictly positive — and stays `"0.00"` otherwise.  The
second conjunct is the claim's concrete instance: subtotal 100.00 with CGST
9.00 and SGST 9.00 and no explicit total gives `"118.00"`. -/
theorem c2_fallback_grand_total :
    (∀ text : Str,
      grandDirect (lines_of text) = none →
      (parse_deep_fields text).grand_total =
        (if 0 < ((extract_amount_smart subtotalKeys (lines_of text)).bind parseCents).getD 0
              + (parseCents (cgstOf (lines_of text))).getD 0
              + (parseCents (sgstOf (lines_of text))).getD 0
         then formatCents (((extract_amount_smart subtotalKeys (lines_of text)).bind parseCents).getD 0
              + (parseCents (cgstOf (lines_of text))).getD 0
              + (parseCents (sgstOf (lines_of text))).getD 0)
         else "0.00".data)) ∧
    (parse_deep_fields "Subtotal 100.00\nCGST 9.00\nSGST 9.00".data).grand_total
      = "118.00".data := by
  constructor
  · intro text hdir
    have hcg : ∃ kc, parseCents (cgstOf (lines_of text)) = some kc := by
      unfold cgstOf
      cases hx : extract_amount_smart ["CGST".data] (lines_of text) with
      | none => exact ⟨0, by decide⟩
      | some c => simpa using extract_parses ["CGST".data] (lines_of text) c hx
    have hsg : ∃ ks, parseCents (sgstOf (lines_of text)) = some ks := by
      unfold sgstOf
      cases hx : extract_amount_smart ["SGST".data] (lines_of text) with
      | none => exact ⟨0, by decide⟩
      | some c => simpa using extract_parses ["SGST".data] (lines_of text) c hx
    obtain ⟨kc, hkc⟩ := hcg
    obtain ⟨ks, hks⟩ := hsg
    show grandOf (lines_of text) = _
    unfold grandOf
    rw [hdir]
    simp only [Option.getD_none, if_true]
    unfold fallbackTotal
    cases hx : extract_amount_smart subtotalKeys (lines_of text) with
    | none =>
      dsimp only [Option.bind, Option.getD]
      rw [hkc, hks]
      dsimp only
      by_cases h0 : 0 < 0 + kc + ks
      · rw [if_pos h0, if_pos h0]
      · rw [if_neg h0, if_neg h0]
    | some s =>
      obtain ⟨k, hk⟩ := extract_parses subtotalKeys (lines_of text) s hx
      dsimp only [Option.bind, Option.getD]
      rw [hk, hkc, hks]
      dsimp only
      by_cases h0 : 0 < k + kc + ks
      · rw [if_pos h0, if_pos h0]
      · rw [if_neg h0, if_neg h0]
  · decide

/-- Witness for C2 on the claim's own document: no priority label matches, so
the fallback formula applies and yields `"118.00"`. -/
theorem c2_fallback_grand_total_witness :
    (parse_deep_fields "Subtotal 100.00\nCGST 9.00\nSGST 9.00".data).grand_total
      = (if 0 < ((extract_amount_smart subtotalKeys (lines_of "Subtotal 100.00\nCGST 9.00\nSGST 9.00".data)).bind parseCents).getD 0
              + (parseCents (cgstOf (lines_of "Subtotal 100.00\nCGST 9.00\nSGST 9.00".data))).getD 0
              + (parseCents (sgstOf (lines_of "Subtotal 100.00\nCGST 9.00\nSGST 9.00".data))).getD 0
         then formatCents (((extract_amount_smart subtotalKeys (lines_of "Subtotal 100.00\nCGST 9.00\nSGST 9.00".data)).bind parseCents).getD 0
              + (parseCents (cgstOf (lines_of "Subtotal 100.00\nCGST 9.00\nSGST 9.00".data))).getD 0
              + (parseCents (sgstOf (lines_of "Subtotal 100.00\nCGST 9.00\nSGST 9.00".data))).getD 0)
         else "0.00".data) :=
  c2_fallback_grand_total.1 "Subtotal 100.00\nCGST 9.00\nSGST 9.00".data (by decide)

/-! ## Behaviour of the amount grammar on comma-less long numerals (claim C9) -/

theorem digit_beq_false {c : Char} (h : c.isDigit = true) (x : Char)
    (hx : x.isDigit = false) : (c == x) = false := by
  cases hbe : c == x
  · rfl
  · exact absurd (beq_iff_eq.mp hbe ▸ h) (by simp [hx])

theorem hasINR_digit {c : Char} (h : c.isDigit = true) (t : Str) :
    hasINR (c :: t) = false := by
  rcases t with _ | ⟨x, _ | ⟨y, u⟩⟩ <;>
    simp [hasINR, digit_beq_false h 'I' (by decide)]

theorem commaGroups_not_comma {c : Char} (hc : (c == ',') = false) (s : Str) :
    commaGroups (c :: s) = ([], c :: s) := by
  rcases s with _ | ⟨x, _ | ⟨y, _ | ⟨z, u⟩⟩⟩ <;> simp [commaGroups, hc]

theorem dotTwo_not_dot {c : Char} (hc : (c == '.') = false) (s : Str) :
    dotTwo (c :: s) = none := by
  rcases s with _ | ⟨x, _ | ⟨y, u⟩⟩ <;> simp [dotTwo, hc]

theorem matchAmountAt_four_digits (d1 d2 d3 d4 : Char) (t : Str)
    (h1 : d1.isDigit = true) (h2 : d2.isDigit = true)
    (h3 : d3.isDigit = true) (h4 : d4.isDigit = true) :
    matchAmountAt (d1 :: d2 :: d3 :: d4 :: t) = none := by
  have hI := hasINR_digit h1 (d2 :: d3 :: d4 :: t)
  have c2 : (d2 == ',') = false := digit_beq_false h2 ',' (by decide)
  have c3 : (d3 == ',') = false := digit_beq_false h3 ',' (by decide)
  have c4 : (d4 == ',') = false := digit_beq_false h4 ',' (by decide)
  have p2 : (d2 == '.') = false := digit_beq_false h2 '.' (by decide)
  have p3 : (d3 == '.') = false := digit_beq_false h3 '.' (by decide)
  have p4 : (d4 == '.') = false := digit_beq_false h4 '.' (by decide)
  simp [matchAmountAt, hI, amountCore, coreWith, digitsTake, h1, h2, h3, h4,
    commaGroups_not_comma c2, commaGroups_not_comma c3, commaGroups_not_comma c4,
    dotTwo_not_dot p2, dotTwo_not_dot p3, dotTwo_not_dot p4]

theorem matchAmountAt_three_digits (d1 d2 d3 a b : Char) (t : Str)
    (h1 : d1.isDigit = true) (h2 : d2.isDigit = true) (h3 : d3.isDigit = true)
    (ha : a.isDigit = true) (hb : b.isDigit = true) :
    matchAmountAt (d1 :: d2 :: d3 :: '.' :: a :: b :: t)
      = some ([d1, d2, d3, '.', a, b], t) := by
  have hI := hasINR_digit h1 (d2 :: d3 :: '.' :: a :: b :: t)
  have pdot : (('.' : Char) == ',') = false := by decide
  simp [matchAmountAt, hI, amountCore, coreWith, digitsTake, h1, h2, h3,
    commaGroups_not_comma pdot, dotTwo, ha, hb]

theorem findAmountsF_nil (fuel : Nat) : findAmountsF fuel [] = [] := by
  cases fuel <;> rfl

theorem findAmounts_step_none {c : Char} {rest : Str}
    (h : matchAmountAt (c :: rest) = none) :
    findAmounts (c :: rest) = findAmounts rest := by
  simp only [findAmounts, List.length_cons, findAmountsF, h]

theorem findAmounts_step_last {c : Char} {rest cap : Str}
    (h : matchAmountAt (c :: rest) = some (cap, [])) :
    findAmounts (c :: rest) = [cap] := by
  simp only [findAmounts, List.length_cons, findAmountsF, h, findAmountsF_nil]

/-- C9: a line amount written with four or more integer digits and no comma
separators never matches whole: the grammar `\d{1,3}(?:,\d{3})*\.\d{2}`
requires comma-grouped thousands, so the scan only captures the trailing
three integer digits plus the fraction.  Concretely,
`"Grand Total 1234.56"` extracts `"234.56"`. -/
theorem c9_commaless_amounts_truncated :
    (∀ (ds : Str) (a b : Char), 4 ≤ ds.length →
      (∀ c ∈ ds, c.isDigit = true) → a.isDigit = true → b.isDigit = true →
      findAmounts (ds ++ ['.', a, b]) = [ds.drop (ds.length - 3) ++ ['.', a, b]]) ∧
    extract_amount_smart ["Grand Total".data] ["Grand Total 1234.56".data]
      = some "234.56".data := by
  constructor
  · intro ds
    induction ds with
    | nil => intro a b hlen; simp at hlen
    | cons d ds ih =>
      intro a b hlen hdig ha hb
      have hd : d.isDigit = true := hdig d (by simp)
      have hdig' : ∀ c ∈ ds, c.isDigit = true := fun c hc => hdig c (by simp [hc])
      by_cases h4 : 4 ≤ ds.length
      · rcases ds with _ | ⟨e, _ | ⟨f, _ | ⟨g, ds2⟩⟩⟩
        · simp at h4
        · simp at h4
        · simp at h4
        · have he : e.isDigit = true := hdig' e (by simp)
          have hf : f.isDigit = true := hdig' f (by simp)
          have hg : g.isDigit = true := hdig' g (by simp)
          have hstep : findAmounts (d :: (e :: f :: g :: ds2) ++ ['.', a, b])
              = findAmounts ((e :: f :: g :: ds2) ++ ['.', a, b]) :=
            findAmounts_step_none
              (matchAmountAt_four_digits d e f g (ds2 ++ ['.', a, b]) hd he hf hg)
          simp only [List.cons_append] at hstep ih ⊢
          rw [hstep, ih a b h4 hdig' ha hb]
          have harith : (d :: e :: f :: g :: ds2).length - 3
              = ((e :: f :: g :: ds2).length - 3) + 1 := by
            simp only [List.length_cons]
            omega
          rw [harith, List.drop_succ_cons]
      · have hlen3 : ds.length = 3 := by
          simp at hlen
          omega
        obtain ⟨x, y, z, rfl⟩ := List.length_eq_three.mp hlen3
        have hx : x.isDigit = true := hdig' x (by simp)
        have hy : y.isDigit = true := hdig' y (by simp)
        have hz : z.isDigit = true := hdig' z (by simp)
        have hstep : findAmounts (d :: [x, y, z] ++ ['.', a, b])
            = findAmounts ([x, y, z] ++ ['.', a, b]) :=
          findAmounts_step_none
            (matchAmountAt_four_digits d x y z ['.', a, b] hd hx hy hz)
        have hlast : findAmounts ([x, y, z] ++ ['.', a, b]) = [[x, y, z, '.', a, b]] :=
          findAmounts_step_last (matchAmountAt_three_digits x y z a b [] hx hy hz ha hb)
        simp only [List.cons_append, List.nil_append] at hstep hlast ⊢
        rw [hstep, hlast]
        simp
  · decide

/-- Witness for C9: the digits `1234` followed by `.56` capture only
`234.56`. -/
theorem c9_commaless_amounts_truncated_witness :
    findAmounts ("1234".data ++ ['.', '5', '6'])
      = ["1234".data.drop ("1234".data.length - 3) ++ ['.', '5', '6']] :=
  c9_commaless_amounts_truncated.1 "1234".data '5' '6' (by decide) (by decide)
    (by decide) (by decide)

/-! ## Idempotence of the currency normalizer (claim C5)

After one pass no occurrence of any of the four replaced patterns remains
(the replacement text `INR ` can neither contain one nor complete one at a
seam), so a second pass finds nothing to replace. -/

theorem str_strong_ind (P : Str → Prop)
    (h : ∀ s, (∀ t : Str, t.length < s.length → P t) → P s) : ∀ s, P s := by
  have hn : ∀ (n : Nat) (t : Str), t.length ≤ n → P t := by
    intro n
    induction n with
    | zero => intro t ht; exact h t (fun u hu => absurd (Nat.lt_of_lt_of_le hu ht) (by omega))
    | succ n ih =>
      intro t ht
      exact h t (fun u hu => ih u (by omega))
  exact fun s => hn s.length s (Nat.le_refl _)

theorem replaceL_nil (pat rep : Str) : replaceL pat rep [] = [] := by
  simp [replaceL]

theorem replaceL_cons_pos {pat : Str} (rep : Str) {c : Char} {r : Str}
    (h : pat.isPrefixOf (c :: r) = true) :
    replaceL pat rep (c :: r) = rep ++ replaceL pat rep (r.drop (pat.length - 1)) := by
  rw [replaceL]
  simp [h]

theorem replaceL_cons_neg {pat : Str} (rep : Str) {c : Char} {r : Str}
    (h : pat.isPrefixOf (c :: r) = false) :
    replaceL pat rep (c :: r) = c :: replaceL pat rep r := by
  rw [replaceL]
  simp [h]

theorem mem_replaceL (pat rep : Str) (x : Char) :
    ∀ s, x ∈ replaceL pat rep s → x ∈ rep ∨ x ∈ s := by
  refine str_strong_ind _ ?_
  intro s ihs hx
  cases s with
  | nil => rw [replaceL_nil] at hx; simp at hx
  | cons c r =>
    by_cases hp : pat.isPrefixOf (c :: r) = true
    · rw [replaceL_cons_pos rep hp] at hx
      rcases List.mem_append.mp hx with hx | hx
      · exact Or.inl hx
      · rcases ihs _ (by simp [List.length_drop]; omega) hx with hh | hh
        · exact Or.inl hh
        · exact Or.inr (List.mem_cons_of_mem c (List.mem_of_mem_drop hh))
    · rw [replaceL_cons_neg rep (Bool.eq_false_iff.mpr hp)] at hx
      rcases List.mem_cons.mp hx with rfl | hx
      · exact Or.inr (by simp)
      · rcases ihs r (by simp) hx with hh | hh
        · exact Or.inl hh
        · exact Or.inr (List.mem_cons_of_mem c hh)

/-- Replacing a single-character pattern whose character the replacement
lacks eliminates that character entirely. -/
theorem replaceL_single_elim {y : Char} {rep : Str} (hrep : y ∉ rep) :
    ∀ s, y ∉ replaceL [y] rep s := by
  refine str_strong_ind _ ?_
  intro s ihs hx
  cases s with
  | nil => rw [replaceL_nil] at hx; simp at hx
  | cons c r =>
    by_cases hp : List.isPrefixOf [y] (c :: r) = true
    · rw [replaceL_cons_pos rep hp] at hx
      rcases List.mem_append.mp hx with hx | hx
      · exact hrep hx
      · have hx' : y ∈ replaceL [y] rep r := by simpa using hx
        exact ihs r (by simp) hx'
    · have hyc : (y == c) = false := by
        cases hyc : y == c
        · rfl
        · exact absurd (by simp [List.isPrefixOf, hyc]) hp
      rw [replaceL_cons_neg rep (Bool.eq_false_iff.mpr hp)] at hx
      rcases List.mem_cons.mp hx with rfl | hx
      · simp at hyc
      · exact ihs r (by simp) hx

theorem cs_cons_false {pat : Str} {c : Char} {r : Str} :
    containsSub pat (c :: r) = false ↔
      pat.isPrefixOf (c :: r) = false ∧ containsSub pat r = false := by
  simp [containsSub]

theorem cs_single (y : Char) : ∀ s : Str, containsSub [y] s = true ↔ y ∈ s := by
  intro s
  induction s with
  | nil => simp [containsSub]
  | cons c r ih =>
    simp only [containsSub, List.isPrefixOf, Bool.and_true, Bool.or_eq_true, ih,
      List.mem_cons]
    constructor
    · rintro (h | h)
      · exact Or.inl (by simpa using (beq_iff_eq.mp (by simpa using h)))
      · exact Or.inr h
    · rintro (rfl | h)
      · exact Or.inl (by simp)
      · exact Or.inr h

theorem isPrefixOf_append_left :
    ∀ (p q s : Str), (p ++ q).isPrefixOf s = true → p.isPrefixOf s = true := by
  intro p
  induction p with
  | nil => intro q s h; simp [List.isPrefixOf]
  | cons a p ih =>
    intro q s h
    cases s with
    | nil => simp [List.isPrefixOf] at h
    | cons b s =>
      simp only [List.cons_append, List.isPrefixOf, Bool.and_eq_true] at h ⊢
      exact ⟨h.1, ih q s h.2⟩

theorem cs_of_cs_append {p q : Str} :
    ∀ t, containsSub (p ++ q) t = true → containsSub p t = true := by
  intro t
  induction t with
  | nil =>
    simp only [containsSub, List.isEmpty_eq_true, List.append_eq_nil]
    rintro ⟨rfl, rfl⟩
    rfl
  | cons c r ih =>
    simp only [containsSub, Bool.or_eq_true]
    rintro (h | h)
    · exact Or.inl (isPrefixOf_append_left p q _ h)
    · exact Or.inr (ih h)

/-- The fixed-point property: a string without the pattern is left alone. -/
theorem replaceL_no_occ (pat rep : Str) :
    ∀ s, containsSub pat s = false → replaceL pat rep s = s := by
  refine str_strong_ind _ ?_
  intro s ihs hcs
  cases s with
  | nil => exact replaceL_nil pat rep
  | cons c r =>
    obtain ⟨h1, h2⟩ := cs_cons_false.mp hcs
    rw [replaceL_cons_neg rep h1, ihs r (by simp) h2]

theorem INRrep_chars : INRrep = ['I', 'N', 'R', ' '] := rfl

theorem moji_chars : rupeeMoji = ['â', '‚', '¹'] := rfl

/-- `Rs` cannot occur inside an inserted `INR ` block or across its right
seam. -/
theorem cs_RS_INR (X : Str) :
    containsSub ['R', 's'] (INRrep ++ X) = containsSub ['R', 's'] X := by
  rw [INRrep_chars]
  simp [containsSub, List.isPrefixOf]

theorem cs_MOJI_INR (X : Str) :
    containsSub rupeeMoji (INRrep ++ X) = containsSub rupeeMoji X := by
  rw [INRrep_chars, moji_chars]
  simp [containsSub, List.isPrefixOf]

/-- A single-character pattern other than `I` that starts the output of a
replacement by `INR ` also starts its input: the head of the output is either
the head of the input or the `I` opening an inserted block. -/
theorem single_prefix_transfer (pat : Str) {y : Char} (hy : (y == 'I') = false) :
    ∀ u, List.isPrefixOf [y] (replaceL pat INRrep u) = true →
      List.isPrefixOf [y] u = true := by
  intro u
  cases u with
  | nil => rw [replaceL_nil]; intro h; simp [List.isPrefixOf] at h
  | cons c r =>
    by_cases hp : pat.isPrefixOf (c :: r) = true
    · rw [replaceL_cons_pos INRrep hp, INRrep_chars]
      intro h
      simp [List.isPrefixOf, hy] at h
    · rw [replaceL_cons_neg INRrep (Bool.eq_false_iff.mpr hp)]
      intro h
      simp only [List.isPrefixOf, Bool.and_true] at h ⊢
      exact h

/-- Same for a two-character pattern neither of whose characters is `I`. -/
theorem two_prefix_transfer (pat : Str) {y z : Char}
    (hy : (y == 'I') = false) (hz : (z == 'I') = false) :
    ∀ u, List.isPrefixOf [y, z] (replaceL pat INRrep u) = true →
      List.isPrefixOf [y, z] u = true := by
  intro u
  cases u with
  | nil => rw [replaceL_nil]; intro h; simp [List.isPrefixOf] at h
  | cons c r =>
    by_cases hp : pat.isPrefixOf (c :: r) = true
    · rw [replaceL_cons_pos INRrep hp, INRrep_chars]
      intro h
      simp [List.isPrefixOf, hy, hz] at h
    · rw [replaceL_cons_neg INRrep (Bool.eq_false_iff.mpr hp)]
      intro h
      simp only [List.isPrefixOf, Bool.and_true, Bool.and_eq_true] at h ⊢
      exact ⟨h.1, single_prefix_transfer pat hz r h.2⟩

/-- After replacing `Rs` by `INR ` no occurrence of `Rs` remains. -/
theorem no_RS_after_replaceRS :
    ∀ s, containsSub ['R', 's'] (replaceL ['R', 's'] INRrep s) = false := by
  refine str_strong_ind _ ?_
  intro s ihs
  cases s with
  | nil => rw [replaceL_nil]; rfl
  | cons c r =>
    by_cases hp : List.isPrefixOf ['R', 's'] (c :: r) = true
    · obtain ⟨hc, hr⟩ : ('R' == c) = true ∧ List.isPrefixOf ['s'] r = true := by
        simpa [List.isPrefixOf] using hp
      cases r with
      | nil => simp [List.isPrefixOf] at hr
      | cons c2 u =>
        rw [replaceL_cons_pos INRrep hp]
        have hdrop : List.drop (['R', 's'].length - 1) (c2 :: u) = u := by simp
        rw [hdrop, cs_RS_INR]
        exact ihs u (by simp only [List.length_cons]; omega)
    · rw [replaceL_cons_neg INRrep (Bool.eq_false_iff.mpr hp)]
      refine cs_cons_false.mpr ⟨?_, ihs r (by simp)⟩
      cases hpre : List.isPrefixOf ['R', 's'] (c :: replaceL ['R', 's'] INRrep r)
      · rfl
      · exfalso
        obtain ⟨h1, h2⟩ : ('R' == c) = true ∧
            List.isPrefixOf ['s'] (replaceL ['R', 's'] INRrep r) = true := by
          simpa [List.isPrefixOf] using hpre
        have h3 := single_prefix_transfer ['R', 's'] (by decide) r h2
        exact absurd (show List.isPrefixOf ['R', 's'] (c :: r) = true by
          simp [List.isPrefixOf, h1, h3]) (by simpa using hp)

/-- After replacing the mojibake sequence by `INR ` no occurrence of it
remains. -/
theorem no_MOJI_after_replaceMOJI :
    ∀ s, containsSub rupeeMoji (replaceL rupeeMoji INRrep s) = false := by
  refine str_strong_ind _ ?_
  intro s ihs
  cases s with
  | nil => rw [replaceL_nil]; rfl
  | cons c r =>
    by_cases hp : List.isPrefixOf rupeeMoji (c :: r) = true
    · obtain ⟨hc, hr⟩ : ('â' == c) = true ∧ List.isPrefixOf ['‚', '¹'] r = true := by
        simpa [moji_chars, List.isPrefixOf] using hp
      rcases r with _ | ⟨c2, _ | ⟨c3, u⟩⟩
      · simp [List.isPrefixOf] at hr
      · simp [List.isPrefixOf] at hr
      · rw [replaceL_cons_pos INRrep hp]
        have hdrop : List.drop (rupeeMoji.length - 1) (c2 :: c3 :: u) = u := by
          simp [moji_chars]
        rw [hdrop, cs_MOJI_INR]
        exact ihs u (by simp only [List.length_cons]; omega)
    · rw [replaceL_cons_neg INRrep (Bool.eq_false_iff.mpr hp)]
      refine cs_cons_false.mpr ⟨?_, ihs r (by simp)⟩
      cases hpre : List.isPrefixOf rupeeMoji (c :: replaceL rupeeMoji INRrep r)
      · rfl
      · exfalso
        obtain ⟨h1, h2⟩ : ('â' == c) = true ∧
            List.isPrefixOf ['‚', '¹'] (replaceL rupeeMoji INRrep r) = true := by
          simpa [moji_chars, List.isPrefixOf] using hpre
        have h3 := two_prefix_transfer rupeeMoji (by decide) (by decide) r h2
        exact absurd (show List.isPrefixOf rupeeMoji (c :: r) = true by
          simp [moji_chars, List.isPrefixOf, h1]
          simpa [List.isPrefixOf] using h3) (by simpa using hp)

/-- Replacing the mojibake sequence by `INR ` cannot create an occurrence of
`Rs`. -/
theorem RS_preserved_replaceMOJI :
    ∀ s, containsSub ['R', 's'] s = false →
      containsSub ['R', 's'] (replaceL rupeeMoji INRrep s) = false := by
  refine str_strong_ind _ ?_
  intro s ihs hcs
  cases s with
  | nil => rw [replaceL_nil]; rfl
  | cons c r =>
    obtain ⟨hcs1, hcs2⟩ := cs_cons_false.mp hcs
    by_cases hp : List.isPrefixOf rupeeMoji (c :: r) = true
    · obtain ⟨hc, hr⟩ : ('â' == c) = true ∧ List.isPrefixOf ['‚', '¹'] r = true := by
        simpa [moji_chars, List.isPrefixOf] using hp
      rcases r with _ | ⟨c2, _ | ⟨c3, u⟩⟩
      · simp [List.isPrefixOf] at hr
      · simp [List.isPrefixOf] at hr
      · rw [replaceL_cons_pos INRrep hp]
        have hdrop : List.drop (rupeeMoji.length - 1) (c2 :: c3 :: u) = u := by
          simp [moji_chars]
        rw [hdrop, cs_RS_INR]
        have hu : containsSub ['R', 's'] u = false :=
          (cs_cons_false.mp (cs_cons_false.mp hcs2).2).2
        exact ihs u (by simp only [List.length_cons]; omega) hu
    · rw [replaceL_cons_neg INRrep (Bool.eq_false_iff.mpr hp)]
      refine cs_cons_false.mpr ⟨?_, ihs r (by simp) hcs2⟩
      cases hpre : List.isPrefixOf ['R', 's'] (c :: replaceL rupeeMoji INRrep r)
      · rfl
      · exfalso
        obtain ⟨h1, h2⟩ : ('R' == c) = true ∧
            List.isPrefixOf ['s'] (replaceL rupeeMoji INRrep r) = true := by
          simpa [List.isPrefixOf] using hpre
        have h3 := single_prefix_transfer rupeeMoji (by decide) r h2
        exact absurd (show List.isPrefixOf ['R', 's'] (c :: r) = true by
          simp [List.isPrefixOf, h1, h3]) (by simp [hcs1])

/-- A string free of all four currency patterns is a fixed point of the
normalizer. -/
theorem normalized_fixed (x : Str)
    (hrs : containsSub ['R', 's'] x = false)
    (hrsd : containsSub ['R', 's', '.'] x = false)
    (hmoji : containsSub rupeeMoji x = false)
    (hrup : '₹' ∉ x) :
    normalize_currency x = x := by
  have hrupcs : containsSub rupee x = false := by
    cases hq : containsSub ['₹'] x
    · exact hq
    · exact absurd ((cs_single '₹' x).mp hq) hrup
  unfold normalize_currency
  rw [replaceL_no_occ rupee INRrep x hrupcs,
    replaceL_no_occ "Rs.".data INRrep x hrsd,
    replaceL_no_occ "Rs".data INRrep x hrs,
    replaceL_no_occ rupeeMoji INRrep x hmoji]

/-- C5: the currency-symbol normalization (rupee glyph, its cp1252 mojibake,
`Rs.` and `Rs`, each replaced by the canonical `INR ` token) is idempotent:
a second pass finds none of the four patterns and changes nothing. -/
theorem c5_normalizer_idempotent :
    ∀ s : Str, normalize_currency (normalize_currency s) = normalize_currency s := by
  intro s
  apply normalized_fixed
  · exact RS_preserved_replaceMOJI _ (no_RS_after_replaceRS _)
  · cases hq : containsSub ['R', 's', '.'] (normalize_currency s)
    · rfl
    · exfalso
      have hrs' : containsSub ['R', 's'] (normalize_currency s) = false :=
        RS_preserved_replaceMOJI _ (no_RS_after_replaceRS _)
      have htrue := @cs_of_cs_append ['R', 's'] ['.'] (normalize_currency s) hq
      rw [hrs'] at htrue
      exact absurd htrue (by decide)
  · exact no_MOJI_after_replaceMOJI _
  · intro hx
    have h1 : '₹' ∉ replaceL rupee INRrep s := by
      have h := @replaceL_single_elim '₹' INRrep (by decide) s
      exact h
    have h2 : '₹' ∉ replaceL "Rs.".data INRrep (replaceL rupee INRrep s) := fun hm =>
      (mem_replaceL _ _ _ _ hm).elim (fun hh => absurd hh (by decide)) h1
    have h3 : '₹' ∉ replaceL "Rs".data INRrep
        (replaceL "Rs.".data INRrep (replaceL rupee INRrep s)) := fun hm =>
      (mem_replaceL _ _ _ _ hm).elim (fun hh => absurd hh (by decide)) h2
    have h4 : '₹' ∉ replaceL rupeeMoji INRrep (replaceL "Rs".data INRrep
        (replaceL "Rs.".data INRrep (replaceL rupee INRrep s))) := fun hm =>
      (mem_replaceL _ _ _ _ hm).elim (fun hh => absurd hh (by decide)) h3
    exact h4 hx

end WiloInvoice
